import Mathlib

/-!
Verification of the WDoc embedding/index-construction subsystem and the
semantic bucketing engine, by shallow embedding of the relevant Python
functions (src/WDoc/utils/embeddings.py, src/wdoc/utils/embeddings.py,
src/WDoc/utils/tasks/query.py) into Lean.

Conventions used throughout:
* Python exceptions (ValueError, AssertionError, SystemExit, KeyError,
  IndexError) are modelled with `Except String`: a raised exception is an
  `Except.error` carrying the exception kind.
* The FAISS document store (`db.docstore._dict`, a Python dict from string
  ids to documents) is modelled as an insertion-ordered association list
  `List (String × α)` whose keys are kept without duplicates, exactly the
  invariant a Python dict guarantees.
* External library computations that the repository only consumes
  (scipy hierarchical clustering, the raw FAISS nearest-neighbour ranking,
  the text tokenizer, the embedding providers) enter the model as explicit
  oracle parameters; everything the repository itself computes is
  translated statement by statement from the source.
-/

/-! ## Relevance score functions

Two implementations exist in the repository under the same name.
`WDoc.score_function` is src/WDoc/utils/embeddings.py lines 80-93,
`wdoc.score_function` is src/wdoc/utils/embeddings.py lines 59-74
(the branch taken when `WDOC_MOD_FAISS_SCORE_FN` is set).
Distances are modelled as rationals. -/

namespace WDoc

/-- Scoring function for faiss, src/WDoc/utils/embeddings.py line 93:
`return (1 - distance) ** 2`. -/
def score_function (distance : ℚ) : ℚ := (1 - distance) ^ 2

end WDoc

namespace wdoc

/-- Scoring function for faiss, src/wdoc/utils/embeddings.py line 73:
`new = 1 - ((1 + distance) / 2)`. -/
def score_function (distance : ℚ) : ℚ := 1 - (1 + distance) / 2

end wdoc

/-! ## Cost-confirmation gate

From `load_saved_embeddings`, src/wdoc/utils/embeddings.py lines 289-295
(identical logic at src/WDoc/utils/embeddings.py lines 442-448):

    dol_price = full_tkn * price
    if dol_price > dollar_limit:
        ans = input("Do you confirm you are okay to pay this? (y/n)\n>")
        if ans.lower() not in ["y", "yes"]:
            red("Quitting.")
            raise SystemExit()

followed (only when not aborted) by the batch-embedding calls and the final
`db.save_local(save_embeds_as)`. The provider calls and the save are
recorded as events so that the abort path can be seen to perform neither. -/

/-- Observable effects of the cost-gated tail of `load_saved_embeddings`. -/
inductive CostEvent
  | promptUser
  | embedDocs
  | saveLocal
deriving DecidableEq

/-- Python `ans.lower()`, on the character-list model of strings. -/
def lower_chars (l : List Char) : List Char := l.map Char.toLower

/-- Test applied to the user's reply: `ans.lower() in ["y", "yes"]`. -/
def confirm_answer_ok (ans : List Char) : Bool :=
  lower_chars ans = "y".toList || lower_chars ans = "yes".toList

/-- Cost gate of `load_saved_embeddings`: computes `dol_price = full_tkn * price`;
when it exceeds `dollar_limit` the user is prompted, and a non-affirmative
reply raises SystemExit before any provider call or save. -/
def load_saved_embeddings_gate (fullTkn : ℕ) (price dollarLimit : ℚ)
    (answer : List Char) : Except String Unit × List CostEvent :=
  let dolPrice : ℚ := fullTkn * price
  if dolPrice > dollarLimit then
    if confirm_answer_ok answer then
      (Except.ok (), [CostEvent.promptUser, CostEvent.embedDocs, CostEvent.saveLocal])
    else
      (Except.error "SystemExit", [CostEvent.promptUser])
  else
    (Except.ok (), [CostEvent.embedDocs, CostEvent.saveLocal])

/-! ## Worker dispatch selection

From `load_embeddings`, src/WDoc/utils/embeddings.py lines 318-324 (and the
identical saver-side code at lines 497-502):

    queue_candidates = random.sample(loader_queues, k=2)
    queue_sizes = [q[0].qsize() for q in queue_candidates]
    ind = queue_sizes.index(min(queue_sizes))
    lq = queue_candidates[ind][0]
    assert loader_workers[ind].is_alive(), f"Loader worker #\x7bind\x7d is dead"

`c0` and `c1` are the global indices of the two sampled workers; `qsize` is
the oracle giving each worker's inbound queue depth.  The result pairs the
global index of the worker whose queue receives the item with the global
index of the worker whose liveness the assert actually checks: the source
indexes `loader_workers` with `ind`, the position inside the 2-element
sample, not with the sampled worker's own index. -/
def dispatch_select (qsize : ℕ → ℕ) (c0 c1 : ℕ) : ℕ × ℕ :=
  let s0 := qsize c0
  let s1 := qsize c1
  let ind := if s0 ≤ s1 then 0 else 1
  (if ind = 0 then c0 else c1, ind)

/-! ## Intermediate-answer filtering

From src/WDoc/utils/tasks/query.py lines 31-45.  Python strings are
modelled as `List Char`; `len(ans)` is the list length.  The regex
`\bIRRELEVANT\b` is modelled by an explicit scan for an occurrence of the
word flanked by non-word characters (or the ends of the string). -/

/-- Word character in the sense of the regex `\b` boundary: `[A-Za-z0-9_]`. -/
def isWordChar (c : Char) : Bool := c.isAlphanum || c == '_'

/-- True when the position just outside a candidate match is a word
boundary: either the end of the string (`none`) or a non-word character. -/
def boundaryOk (c : Option Char) : Bool :=
  match c with
  | none => true
  | some c => !isWordChar c

/-- Whether `s` starts with `pat`. -/
def startsWithList : List Char → List Char → Bool
  | [], _ => true
  | _ :: _, [] => false
  | p :: ps, c :: cs => p == c && startsWithList ps cs

/-- Whether `pat` occurs somewhere in `s` (plain substring containment,
Python `pat in s`). -/
def containsList (pat : List Char) : List Char → Bool
  | [] => startsWithList pat []
  | c :: cs => startsWithList pat (c :: cs) || containsList pat cs

/-- Scan for `re.search(r"\bPAT\b", s)`: some position of `s` starts an
occurrence of `pat` whose neighbouring characters on both sides are word
boundaries.  `prev` carries the character just before the current
position. -/
def wordSearch (pat : List Char) : Option Char → List Char → Bool
  | _, [] => false
  | prev, c :: cs =>
    (startsWithList pat (c :: cs) && boundaryOk prev
      && boundaryOk ((c :: cs).drop pat.length).head?) ||
    wordSearch pat (some c) cs

/-- Translation of `check_intermediate_answer`
(src/WDoc/utils/tasks/query.py lines 34-45):

    if "<answer>IRRELEVANT</answer>" in ans: return False
    if ((not irrelevant_regex.search(ans)) and len(ans) < len("IRRELEVANT") * 2) \
       or len(ans) >= len("IRRELEVANT") * 2:
        return True
    return False
-/
def check_intermediate_answer (ans : List Char) : Bool :=
  if containsList "<answer>IRRELEVANT</answer>".toList ans then false
  else if (!(wordSearch "IRRELEVANT".toList none ans)
            && ans.length < "IRRELEVANT".length * 2)
          || ans.length ≥ "IRRELEVANT".length * 2 then true
  else false

/-! ## Loader worker accumulation

From `faiss_loader`, src/WDoc/utils/embeddings.py lines 575-617.  Each work
item dispatched to the worker is a pair of the single-document shard the
worker would load from disk (the shard file is an oracle: it contains
exactly one `(id, document)` entry, per the `assert len(ids_list) == 1`)
and the metadata sent along with the file name (`lq.put((fi, doc.metadata))`).
The worker's accumulator `db` starts as `None`; the first shard becomes the
accumulator via `db = temp; continue` WITHOUT the line
`temp.docstore._dict[did].metadata = metadata` ever running, whereas each
later, non-duplicate shard has the dispatched metadata attached to its
single document before `db.merge_from(temp)`. -/

/-- Document as stored in a shard's docstore: immutable page content plus a
mutable metadata field. -/
structure LoadedDoc (M : Type) where
  content : String
  metadata : M

/-- One iteration of the `faiss_loader` receive loop on a non-stop item. -/
def faiss_loader_step {M : Type} (db : Option (List (String × LoadedDoc M)))
    (item : (String × LoadedDoc M) × M) : Option (List (String × LoadedDoc M)) :=
  match db with
  | none => some [item.1]
  | some d =>
    if d.any (fun p => p.1 == item.1.1) then some d
    else some (d ++ [(item.1.1, { item.1.2 with metadata := item.2 })])

/-- The whole receive loop of `faiss_loader` over the sequence of work
items delivered before the stop sentinel; returns the accumulated merged
docstore that the worker pushes on its outbound queue. -/
def faiss_loader {M : Type} (items : List ((String × LoadedDoc M) × M)) :
    Option (List (String × LoadedDoc M)) :=
  items.foldl faiss_loader_step none

/-! ## Batch embedding with retry and cache bypass

From `embed_one_batch`, src/wdoc/utils/embeddings.py lines 305-335:

    n_trial = 3
    for trial in range(n_trial):
        try:
            temp = FAISS.from_documents(batch, cached_embeddings, ...)
            break
        except Exception as e:
            red(f"... Error at trial ...")
            if trial + 1 >= n_trial:
                red("Too many errors: bypassing the cache:")
                temp = FAISS.from_documents(batch, cached_embeddings.underlying_embeddings, ...)
                break
            else:
                time.sleep(1)
    return temp

The outcome of attempt number `i` through the cached path is the oracle
`c i`; the outcome of the final cache-bypassing call is the oracle `bp`.
The trace records each cached attempt, each backoff sleep, the logged
fallback report, and the bypass call.  Note the bypass call itself is not
inside a `try`, so its exception propagates. -/

/-- Observable events of `embed_one_batch`. -/
inductive EmbedEvent
  | cacheAttempt (trial : ℕ)
  | backoffSleep
  | fallbackReport
  | bypassAttempt
deriving DecidableEq

/-- Whether an event is an attempt through the cached embeddings path. -/
def isCacheAttempt : EmbedEvent → Bool
  | EmbedEvent.cacheAttempt _ => true
  | _ => false

/-- Whether an event is a backoff sleep. -/
def isBackoffSleep : EmbedEvent → Bool
  | EmbedEvent.backoffSleep => true
  | _ => false

/-- Translation of `embed_one_batch` with its three-trial loop unrolled
(`n_trial = 3` is a literal in the source). -/
def embed_one_batch {V : Type} (c : ℕ → Except String V) (bp : Except String V) :
    Except String V × List EmbedEvent :=
  match c 0 with
  | Except.ok v => (Except.ok v, [EmbedEvent.cacheAttempt 0])
  | Except.error _ =>
    match c 1 with
    | Except.ok v =>
      (Except.ok v,
        [EmbedEvent.cacheAttempt 0, EmbedEvent.backoffSleep, EmbedEvent.cacheAttempt 1])
    | Except.error _ =>
      match c 2 with
      | Except.ok v =>
        (Except.ok v,
          [EmbedEvent.cacheAttempt 0, EmbedEvent.backoffSleep,
           EmbedEvent.cacheAttempt 1, EmbedEvent.backoffSleep, EmbedEvent.cacheAttempt 2])
      | Except.error _ =>
        (bp,
          [EmbedEvent.cacheAttempt 0, EmbedEvent.backoffSleep,
           EmbedEvent.cacheAttempt 1, EmbedEvent.backoffSleep, EmbedEvent.cacheAttempt 2,
           EmbedEvent.fallbackReport, EmbedEvent.bypassAttempt])

/-! ## Search integrity patch

From `faiss_hotfix`, src/WDoc/utils/embeddings.py lines 95-144.  The
underlying `vectorstore.index.search` is the raw FAISS nearest-neighbour
search; asked for `n` candidates it returns the first `n` entries of a
fixed relevance ranking of `(score, id)` pairs, padded with the FAISS
sentinel id `-1` when the index holds fewer than `n` vectors.  The ranking
is an oracle parameter.  `valid` is the mask predicate
`lambda ar: ar in ok_ids` with `ok_ids = vectorstore.index_to_docstore_id.keys()`.
Assertion failures inside the wrapper are `Except.error`. -/

/-- Raw FAISS search: the first `n` entries of the ranking, padded with
`(0, -1)` placeholders beyond the end of the index. -/
def searchRaw (ranking : List (ℤ × ℤ)) (n : ℕ) : List (ℤ × ℤ) :=
  ranking.take n ++ List.replicate (n - ranking.length) (0, -1)

/-- Keep the candidates whose id passes the docstore-membership mask:
`ids.squeeze()[get_mask(ids.squeeze())]`, applied to scores and ids alike. -/
def filterValid (valid : ℤ → Bool) (l : List (ℤ × ℤ)) : List (ℤ × ℤ) :=
  l.filter (fun p => valid p.2)

/-- The `while diff > 0 and trial < 10` retry loop of the wrapper in
`faiss_hotfix`.  Each iteration re-issues the search asking for `k + diff`
candidates, filters, recomputes the deficit and checks the
`assert diff >= 0`.  `fuel` is the number of loop iterations still allowed
after the current one (the loop body runs at most 10 times, so the initial
call uses `fuel = 9`).  When the deficit is still positive after the last
allowed iteration, the filtered result of that iteration is returned as is. -/
def retryLoop (ranking : List (ℤ × ℤ)) (valid : ℤ → Bool) (k : ℕ) :
    ℕ → ℕ → Except String (List (ℤ × ℤ))
  | diff, 0 =>
    if k < (filterValid valid (searchRaw ranking (k + diff))).length then
      Except.error "AssertionError: got more than k"
    else Except.ok (filterValid valid (searchRaw ranking (k + diff)))
  | diff, fuel + 1 =>
    if k < (filterValid valid (searchRaw ranking (k + diff))).length then
      Except.error "AssertionError: got more than k"
    else if (filterValid valid (searchRaw ranking (k + diff))).length = k then
      Except.ok (filterValid valid (searchRaw ranking (k + diff)))
    else retryLoop ranking valid k
      (k - (filterValid valid (searchRaw ranking (k + diff))).length) fuel

/-- The patched `index.search` installed by `faiss_hotfix`: search for `k`,
filter out ids unknown to `index_to_docstore_id`; if nothing was filtered
return the original candidates, otherwise retry with an enlarged request,
at most 10 times. -/
def patchedSearch (ranking : List (ℤ × ℤ)) (valid : ℤ → Bool) (k : ℕ) :
    Except String (List (ℤ × ℤ)) :=
  if k < (filterValid valid (searchRaw ranking k)).length then
    Except.error "AssertionError: got more than k"
  else if (filterValid valid (searchRaw ranking k)).length = k then
    Except.ok (searchRaw ranking k)
  else retryLoop ranking valid k
    (k - (filterValid valid (searchRaw ranking k)).length) 9

/-! ## Index merge engine

From `iter_merge` (src/WDoc/utils/embeddings.py lines 52-78) and the merge
step of `load_embeddings` (lines 522-534):

    try:
        db.merge_from(temp)
    except ValueError as err:
        if "Tried to add ids that already exist" not in str(err):
            raise
        failed_to_merge.extend(iter_merge(db, temp))

Document stores are association lists from ids to documents of an abstract
type `α` (each entry stands for the document together with its re-extracted
embedding vector).  Both `FAISS.merge_from` and `FAISS.add_embeddings` feed
the new entries through `InMemoryDocstore.add`, which raises
`ValueError("Tried to add ids that already exist...")` when any incoming id
is already present and otherwise appends all entries.  Exogenous failures
of a single-document `add_embeddings` call (anything other than the
duplicate-id ValueError) are modelled by the oracle `oracle : id ↦ Option msg`;
`iter_merge` re-raises exactly those. -/

/-- Outcome of a single `db1.add_embeddings(..., ids=[docuid])` call. -/
inductive AddOutcome (α : Type)
  | ok (db : List (String × α))
  | dupError
  | otherError (msg : String)

/-- One `add_embeddings` call inserting a single `(id, document)` pair:
an exogenous failure reported by the oracle propagates as is, a duplicate
id raises the duplicate-id ValueError, otherwise the entry is appended. -/
def add_embeddings {α : Type} (oracle : String → Option String)
    (db : List (String × α)) (p : String × α) : AddOutcome α :=
  match oracle p.1 with
  | some e => AddOutcome.otherError e
  | none =>
    if p.1 ∈ db.map Prod.fst then AddOutcome.dupError
    else AddOutcome.ok (db ++ [p])

/-- Bulk `db1.merge_from(db2)`: `InMemoryDocstore.add` rejects the whole
merge (duplicate-id ValueError, modelled as `none`) when any id of `db2`
already exists in `db1`, and otherwise appends every entry. -/
def merge_from {α : Type} (db1 db2 : List (String × α)) :
    Option (List (String × α)) :=
  if db2.any (fun p => decide (p.1 ∈ db1.map Prod.fst)) then none
  else some (db1 ++ db2)

/-- The per-document loop of `iter_merge`: insert each of `db2`'s
`(id, document, vector)` entries into the accumulator individually;
a duplicate-id ValueError appends the document to `failed`, any other
error is re-raised. -/
def iter_merge_go {α : Type} (oracle : String → Option String) :
    List (String × α) → List (String × α) → List α →
    Except String (List (String × α) × List α)
  | db1, [], failed => Except.ok (db1, failed)
  | db1, p :: rest, failed =>
    match add_embeddings oracle db1 p with
    | AddOutcome.ok db => iter_merge_go oracle db rest failed
    | AddOutcome.dupError => iter_merge_go oracle db1 rest (failed ++ [p.2])
    | AddOutcome.otherError e => Except.error e

/-- `iter_merge(db1, db2)`: merge `db2` into `db1` one document at a time,
returning the merged store and the list of documents whose ids still
collided. -/
def iter_merge {α : Type} (oracle : String → Option String)
    (db1 db2 : List (String × α)) :
    Except String (List (String × α) × List α) :=
  iter_merge_go oracle db1 db2 []

/-- The merge step of `load_embeddings`: attempt the bulk `merge_from`
first and fall back to `iter_merge` when the bulk merge is rejected for
duplicate ids. -/
def load_embeddings_merge {α : Type} (oracle : String → Option String)
    (db1 db2 : List (String × α)) :
    Except String (List (String × α) × List α) :=
  match merge_from db1 db2 with
  | some db => Except.ok (db, [])
  | none => iter_merge oracle db1 db2

/-! ## Semantic bucketing engine

From `semantic_batching`, src/WDoc/utils/tasks/query.py lines 151-344.
The clustering front end (embedding, standard scaling, PCA, the pairwise
distance matrix, Ward linkage, `leaves_list`, `fcluster` and the
singleton-cluster merging on the label array) is scipy/sklearn library
code consumed by the repository; its two products enter the model as
oracle parameters:

* `order : ℕ → ℕ` — the array `order = leaves_list(Z)` used as sort key
  (`order[texts.index(t)]`);
* `clusterLabels : List ℕ` — the array `cluster_labels` as it stands after
  the singleton-cluster merge, one label per deduplicated text (`fcluster`
  returns exactly one label per observation, hence the length guard).

Everything from the token-budget packing loop (line 269) to the final
assertions (lines 338-342) is translated statement by statement, including
the `current_tokens = 0` reset of line 285 and the neighbour-merge loop of
lines 304-335.  `sizes` is the tokenizer oracle `get_tkn_length`. -/

/-- Order-preserving deduplication of the input texts
(`[temp.append(t) for t in texts if t not in temp]`). -/
def dedup_texts (texts : List String) : List String :=
  texts.foldl (fun acc t => if t ∈ acc then acc else acc ++ [t]) []

/-- Order-preserving deduplication for label arrays. -/
def dedup_nat (l : List ℕ) : List ℕ :=
  l.foldl (fun acc t => if t ∈ acc then acc else acc ++ [t]) []

/-- Insert into a sorted list of labels. -/
def insert_sorted (x : ℕ) : List ℕ → List ℕ
  | [] => [x]
  | y :: ys => if x ≤ y then x :: y :: ys else y :: insert_sorted x ys

/-- Insertion sort for label arrays. -/
def sort_nat (l : List ℕ) : List ℕ := l.foldr insert_sorted []

/-- `np.unique(cluster_labels)` followed by `labels.sort()`: the distinct
labels in increasing order. -/
def uniq_sorted (l : List ℕ) : List ℕ := sort_nat (dedup_nat l)

/-- `np.argwhere(cluster_labels == lab)`: the indices carrying label
`lab`, in increasing order. -/
def label_mask (clusterLabels : List ℕ) (n : ℕ) (lab : ℕ) : List ℕ :=
  (List.range n).filter (fun i => clusterLabels[i]? == some lab)

/-- Token-budget packing of one cluster's texts, the inner loop of lines
280-289.  State: buckets already closed, the bucket being filled, its
token counter.  Note the faithful `current_tokens = 0` (not
`current_tokens = size`) when a new bucket is started. -/
def pack_step (texts : List String) (sizes : String → ℕ)
    (st : List (List String) × List String × ℕ) (i : ℕ) :
    List (List String) × List String × ℕ :=
  if st.2.2 + sizes (texts.getD i "") > 500 then (st.1 ++ [st.2.1], [texts.getD i ""], 0)
  else (st.1, st.2.1 ++ [texts.getD i ""], st.2.2 + sizes (texts.getD i ""))

def pack_cluster (texts : List String) (sizes : String → ℕ) (idxs : List ℕ) :
    List (List String) :=
  (idxs.foldl (pack_step texts sizes) ([], [], 0)).1 ++
    [(idxs.foldl (pack_step texts sizes) ([], [], 0)).2.1]

/-- Lines 269-293: iterate the packing over every label's mask.  The
`assert len(lab_mask) > 1` of line 279 and the oracle length guard are
checked first. -/
def fill_buckets (texts : List String) (sizes : String → ℕ)
    (clusterLabels : List ℕ) : Except String (List (List String)) :=
  if clusterLabels.length ≠ texts.length then
    Except.error "oracle: fcluster returns one label per text"
  else
    let labels := uniq_sorted clusterLabels
    if labels.length ≤ 1 then Except.error "AssertionError: single label"
    else
      let masks := labels.map (label_mask clusterLabels texts.length)
      if masks.all (fun m => decide (1 < m.length)) then
        Except.ok ((masks.map (pack_cluster texts sizes)).flatten)
      else Except.error "AssertionError: lab mask"

/-- Total token count of one bucket. -/
def bucket_tokens (sizes : String → ℕ) (b : List String) : ℕ :=
  (b.map sizes).sum

/-- `texts.index(t)`: index of the first occurrence. -/
def index_of_text (texts : List String) (t : String) : ℕ :=
  texts.findIdx (fun s => s == t)

/-- Insertion step for sorting a bucket by a numeric key. -/
def insert_by_key (key : String → ℕ) (x : String) : List String → List String
  | [] => [x]
  | y :: ys => if key x ≤ key y then x :: y :: ys else y :: insert_by_key key x ys

/-- `sorted(b, key=...)` via insertion sort. -/
def sort_by_key (key : String → ℕ) (l : List String) : List String :=
  l.foldr (insert_by_key key) []

/-- Line 300: sort one bucket by the leaf order,
`sorted(b, key=lambda t: order[texts.index(t)])`. -/
def sort_bucket (texts : List String) (order : ℕ → ℕ) (b : List String) :
    List String :=
  sort_by_key (fun t => order (index_of_text texts t)) b

/-- One iteration of the singleton-rebalancing loop (lines 304-335) at
index `ib`.  A singleton bucket at `ib = 0` merges with bucket 1 (both
pops preserve the text multiset); a singleton anywhere else evaluates
`pd_dist.loc[t_cur, t]` with STRING keys against the integer-labelled
distance matrix, which raises KeyError (and at the last index
`buckets[ib+1]` would raise IndexError right after); the
`elif ib == len(buckets)` arm is unreachable. -/
def rebalance_step (sizes : String → ℕ) (buckets : List (List String))
    (ib : ℕ) : Except String (List (List String)) :=
  let b := buckets.getD ib []
  if b.isEmpty then Except.error "AssertionError: empty bucket"
  else if b.length == 1 then
    let t := b.getD 0 ""
    if sizes t ≤ 500 then Except.error "AssertionError: singleton under budget"
    else if ib == 0 then
      match buckets[1]? with
      | none => Except.error "IndexError"
      | some nb =>
        if nb.isEmpty then Except.error "AssertionError: next bucket empty"
        else if nb.length == 1 then
          Except.ok ((buckets.set 0 []).set 1 (t :: nb))
        else
          Except.ok ((buckets.set 0 (b ++ [nb.getD 0 ""])).set 1 nb.tail)
    else Except.error "KeyError: pd_dist has integer labels"
  else Except.ok buckets

/-- The rebalancing loop over the (fixed-length) bucket list:
`for ib, b in enumerate(buckets)`. -/
def rebalance_go (sizes : String → ℕ) :
    List ℕ → List (List String) → Except String (List (List String))
  | [], buckets => Except.ok buckets
  | ib :: rest, buckets =>
    match rebalance_step sizes buckets ib with
    | Except.error e => Except.error e
    | Except.ok buckets2 => rebalance_go sizes rest buckets2

/-- Lines 304-335 as a whole. -/
def rebalance (sizes : String → ℕ) (buckets : List (List String)) :
    Except String (List (List String)) :=
  rebalance_go sizes (List.range buckets.length) buckets

/-- Lines 337-344: drop empty buckets, then the three final assertions
(bucket sizes, duplicates, membership) and the return. -/
def final_checks (texts : List String) (buckets0 : List (List String)) :
    Except String (List (List String)) :=
  if !(buckets0.filter (fun b => !b.isEmpty)).all (fun b => decide (2 ≤ b.length)) then
    Except.error "AssertionError: bucket of size 1"
  else if !decide ((buckets0.filter (fun b => !b.isEmpty)).flatten).Nodup then
    Except.error "AssertionError: duplicate texts"
  else if !((buckets0.filter (fun b => !b.isEmpty)).flatten).all
      (fun t => decide (t ∈ texts)) then
    Except.error "AssertionError: texts were added"
  else Except.ok (buckets0.filter (fun b => !b.isEmpty))

/-- Translation of `semantic_batching` (src/WDoc/utils/tasks/query.py
lines 151-344): deduplicate, return a single bucket when fewer than 5
distinct texts remain, otherwise pack along the clustering oracle, check
the per-bucket token budget, sort each bucket by leaf order, rebalance
singleton buckets, drop empties and run the final assertions. -/
def semantic_batching_main (texts : List String) (sizes : String → ℕ)
    (order : ℕ → ℕ) (clusterLabels : List ℕ) :
    Except String (List (List String)) :=
  match fill_buckets texts sizes clusterLabels with
  | Except.error e => Except.error e
  | Except.ok buckets1 =>
    if !buckets1.all (fun b => !b.isEmpty) then
      Except.error "AssertionError: empty buckets"
    else if !buckets1.all (fun b => decide (bucket_tokens sizes b ≤ 500)) then
      Except.error "AssertionError: bucket over token budget"
    else
      match rebalance sizes (buckets1.map (sort_bucket texts order)) with
      | Except.error e => Except.error e
      | Except.ok buckets3 => final_checks texts buckets3

def semantic_batching (texts0 : List String) (sizes : String → ℕ)
    (order : ℕ → ℕ) (clusterLabels : List ℕ) :
    Except String (List (List String)) :=
  if texts0.isEmpty then Except.error "AssertionError: no input text"
  else if (dedup_texts texts0).length < 5 then Except.ok [dedup_texts texts0]
  else semantic_batching_main (dedup_texts texts0) sizes order clusterLabels

/-! # Theorems -/

/-! ## C3: relevance score functions -/

/-- C3 (counterexample).  The claim "both observed implementations map a
distance to [0,1], send 0 to 1 and are non-increasing" is false on the
code: `1 - ((1 + d) / 2)` sends 0 to 1/2 and is negative at 2, while
`(1 - d) ** 2` exceeds 1 at 3 and increases from 1 to 2. -/
theorem score_function_claim_fails :
    wdoc.score_function 0 ≠ 1 ∧
    WDoc.score_function 3 > 1 ∧
    WDoc.score_function 1 < WDoc.score_function 2 ∧
    wdoc.score_function 2 < 0 := by
  refine ⟨?_, ?_, ?_, ?_⟩ <;> norm_num [WDoc.score_function, wdoc.score_function]

/-- C3 (amended).  On distances in [0, 1] (the range the code's
commented-out clamping anticipates), both implementations land in [0, 1]
and are non-increasing; `(1 - d) ** 2` sends 0 to 1, whereas
`1 - ((1 + d) / 2)` sends 0 to 1/2. -/
theorem score_function_amended (d d1 d2 : ℚ)
    (hd0 : 0 ≤ d) (hd1 : d ≤ 1) (h10 : 0 ≤ d1) (h12 : d1 ≤ d2) (h21 : d2 ≤ 1) :
    0 ≤ WDoc.score_function d ∧ WDoc.score_function d ≤ 1 ∧
    0 ≤ wdoc.score_function d ∧ wdoc.score_function d ≤ 1 ∧
    WDoc.score_function 0 = 1 ∧ wdoc.score_function 0 = 1 / 2 ∧
    WDoc.score_function d2 ≤ WDoc.score_function d1 ∧
    wdoc.score_function d2 ≤ wdoc.score_function d1 := by
  unfold WDoc.score_function wdoc.score_function
  refine ⟨by nlinarith, by nlinarith, by linarith, by linarith,
    by norm_num, by norm_num, by nlinarith, by linarith⟩

/-- C3 (witness for `score_function_amended` at d = 1/2, d1 = 0, d2 = 1). -/
theorem score_function_amended_witness :
    0 ≤ WDoc.score_function (1 / 2) ∧ WDoc.score_function (1 / 2) ≤ 1 ∧
    0 ≤ wdoc.score_function (1 / 2) ∧ wdoc.score_function (1 / 2) ≤ 1 ∧
    WDoc.score_function 0 = 1 ∧ wdoc.score_function 0 = 1 / 2 ∧
    WDoc.score_function 1 ≤ WDoc.score_function 0 ∧
    wdoc.score_function 1 ≤ wdoc.score_function 0 :=
  score_function_amended (1 / 2) 0 1 (by norm_num) (by norm_num) (by norm_num)
    (by norm_num) (by norm_num)

/-! ## C7: cost-confirmation gate -/

/-- C7.  Whenever the estimated cost `full_tkn * price` exceeds the dollar
limit, the user is prompted, and any reply other than an affirmative yes
(`"y"`/`"yes"`, case-insensitively) raises SystemExit with no embedding
provider call and no save of new state. -/
theorem cost_gate_decline_aborts (fullTkn : ℕ) (price limit : ℚ) (ans : List Char)
    (hover : (fullTkn : ℚ) * price > limit)
    (hno : ¬(lower_chars ans = "y".toList ∨ lower_chars ans = "yes".toList)) :
    load_saved_embeddings_gate fullTkn price limit ans =
      (Except.error "SystemExit", [CostEvent.promptUser]) ∧
    CostEvent.embedDocs ∉ (load_saved_embeddings_gate fullTkn price limit ans).2 ∧
    CostEvent.saveLocal ∉ (load_saved_embeddings_gate fullTkn price limit ans).2 := by
  push_neg at hno
  have hc : confirm_answer_ok ans = false := by
    unfold confirm_answer_ok
    simp only [Bool.or_eq_false_iff, decide_eq_false_iff_not]
    exact ⟨hno.1, hno.2⟩
  have hgate : load_saved_embeddings_gate fullTkn price limit ans =
      (Except.error "SystemExit", [CostEvent.promptUser]) := by
    unfold load_saved_embeddings_gate
    rw [if_pos hover, hc]
    simp
  refine ⟨hgate, ?_, ?_⟩ <;> rw [hgate] <;> simp

/-- C7 (witness at the spec's own numbers: 1,000,000 tokens at
$0.0001/token = $100 against a $10 limit, reply "n"). -/
theorem cost_gate_decline_aborts_witness :
    load_saved_embeddings_gate 1000000 (1 / 10000) 10 "n".toList =
      (Except.error "SystemExit", [CostEvent.promptUser]) ∧
    CostEvent.embedDocs ∉ (load_saved_embeddings_gate 1000000 (1 / 10000) 10 "n".toList).2 ∧
    CostEvent.saveLocal ∉ (load_saved_embeddings_gate 1000000 (1 / 10000) 10 "n".toList).2 :=
  cost_gate_decline_aborts 1000000 (1 / 10000) 10 "n".toList (by norm_num) (by decide)

/-! ## C8: worker dispatch and the liveness assertion -/

/-- C8 (counterexample).  With the sampled pair being global workers 3 and
4 (equal queue sizes), the item goes to worker 3 while the liveness
assertion checks worker 0: the assert indexes the global worker list with
the candidate's position inside the 2-element sample, not with the selected
worker's own index. -/
theorem dispatch_liveness_checks_wrong_worker :
    (dispatch_select (fun _ => 0) 3 4).1 = 3 ∧
    (dispatch_select (fun _ => 0) 3 4).2 = 0 ∧
    (dispatch_select (fun _ => 0) 3 4).2 ≠ (dispatch_select (fun _ => 0) 3 4).1 := by
  refine ⟨rfl, rfl, by decide⟩

/-- C8 (amended).  For every dispatched unit of work the dispatcher does
pick, of the 2 sampled workers, one with the smaller inbound queue; but the
worker whose liveness is asserted is the one at global position 0 or 1
(the winning candidate's position within the sample), not necessarily the
selected worker. -/
theorem dispatch_select_spec (qsize : ℕ → ℕ) (c0 c1 : ℕ) :
    ((dispatch_select qsize c0 c1).1 = c0 ∨ (dispatch_select qsize c0 c1).1 = c1) ∧
    qsize (dispatch_select qsize c0 c1).1 = min (qsize c0) (qsize c1) ∧
    (dispatch_select qsize c0 c1).2 = (if qsize c0 ≤ qsize c1 then 0 else 1) := by
  unfold dispatch_select
  by_cases h : qsize c0 ≤ qsize c1 <;> simp [h] <;> omega

/-! ## C6: batch embedding retry and cache-bypass fallback -/

/-- C6 (counterexample).  The claim that "an embedding failure is never
fatal at batch granularity" is false: the cache-bypassing fallback call is
not guarded, so when it fails too the exception propagates out of
`embed_one_batch`. -/
theorem embed_one_batch_fatal_counterexample :
    (embed_one_batch (fun _ => (Except.error "provider down" : Except String ℕ))
        (Except.error "provider down")).1 = Except.error "provider down" := rfl

/-- C6 (amended).  When every attempt through the cached path fails,
`embed_one_batch` makes exactly 3 cached attempts with a backoff sleep
between consecutive attempts, reports the fallback, and its result is that
of the cache-bypassing provider call (whose own failure, if any,
propagates). -/
theorem embed_one_batch_retry_fallback {V : Type} (c : ℕ → Except String V)
    (bp : Except String V)
    (hfail : ∀ i, i < 3 → ∃ e, c i = Except.error e) :
    (embed_one_batch c bp).1 = bp ∧
    (embed_one_batch c bp).2.countP isCacheAttempt = 3 ∧
    (embed_one_batch c bp).2.countP isBackoffSleep = 2 ∧
    EmbedEvent.fallbackReport ∈ (embed_one_batch c bp).2 ∧
    (embed_one_batch c bp).2.getLast? = some EmbedEvent.bypassAttempt := by
  obtain ⟨e0, h0⟩ := hfail 0 (by norm_num)
  obtain ⟨e1, h1⟩ := hfail 1 (by norm_num)
  obtain ⟨e2, h2⟩ := hfail 2 (by norm_num)
  have hrun : embed_one_batch c bp =
      (bp,
        [EmbedEvent.cacheAttempt 0, EmbedEvent.backoffSleep,
         EmbedEvent.cacheAttempt 1, EmbedEvent.backoffSleep, EmbedEvent.cacheAttempt 2,
         EmbedEvent.fallbackReport, EmbedEvent.bypassAttempt]) := by
    unfold embed_one_batch
    rw [h0, h1, h2]
  have hres : (embed_one_batch c bp).1 = bp := by rw [hrun]
  have htr : (embed_one_batch c bp).2 =
      [EmbedEvent.cacheAttempt 0, EmbedEvent.backoffSleep,
       EmbedEvent.cacheAttempt 1, EmbedEvent.backoffSleep, EmbedEvent.cacheAttempt 2,
       EmbedEvent.fallbackReport, EmbedEvent.bypassAttempt] := by rw [hrun]
  rw [hres, htr]
  refine ⟨rfl, by decide, by decide, by decide, rfl⟩

/-- C6 (witness for `embed_one_batch_retry_fallback` with an always-failing
cached path and a succeeding bypass). -/
theorem embed_one_batch_retry_fallback_witness :
    (embed_one_batch (fun _ => (Except.error "cache corrupt" : Except String ℕ))
        (Except.ok 7)).1 = Except.ok 7 ∧
    (embed_one_batch (fun _ => (Except.error "cache corrupt" : Except String ℕ))
        (Except.ok 7)).2.countP isCacheAttempt = 3 ∧
    (embed_one_batch (fun _ => (Except.error "cache corrupt" : Except String ℕ))
        (Except.ok 7)).2.countP isBackoffSleep = 2 ∧
    EmbedEvent.fallbackReport ∈
      (embed_one_batch (fun _ => (Except.error "cache corrupt" : Except String ℕ))
        (Except.ok 7)).2 ∧
    (embed_one_batch (fun _ => (Except.error "cache corrupt" : Except String ℕ))
        (Except.ok 7)).2.getLast? = some EmbedEvent.bypassAttempt :=
  embed_one_batch_retry_fallback _ _ (fun _ _ => ⟨"cache corrupt", rfl⟩)

/-! ## C10: first-shard shortcut of the loader worker -/

/-- Helper for C10: once the accumulator holds `h :: es`, its head never
changes and every element later appended to the tail is some later work
item's shard entry with the dispatched metadata attached. -/
theorem faiss_loader_go {M : Type} (items : List ((String × LoadedDoc M) × M)) :
    ∀ (h : String × LoadedDoc M) (es : List (String × LoadedDoc M)),
    ∃ d, items.foldl faiss_loader_step (some (h :: es)) = some d ∧
      d.head? = some h ∧
      ∀ e ∈ d.tail, e ∈ es ∨ ∃ item ∈ items,
        e = (item.1.1, { item.1.2 with metadata := item.2 }) := by
  induction items with
  | nil =>
    intro h es
    exact ⟨h :: es, rfl, rfl, fun e he => Or.inl (by simpa using he)⟩
  | cons it rest ih =>
    intro h es
    simp only [List.foldl_cons]
    by_cases hdup : (h :: es).any (fun p => p.1 == it.1.1)
    · have hstep : faiss_loader_step (some (h :: es)) it = some (h :: es) := by
        simp [faiss_loader_step, hdup]
      rw [hstep]
      obtain ⟨d, hd, hh, ht⟩ := ih h es
      refine ⟨d, hd, hh, fun e he => ?_⟩
      rcases ht e he with h1 | ⟨x, hx, hex⟩
      · exact Or.inl h1
      · exact Or.inr ⟨x, List.mem_cons_of_mem _ hx, hex⟩
    · have hstep : faiss_loader_step (some (h :: es)) it =
          some (h :: (es ++ [(it.1.1, { it.1.2 with metadata := it.2 })])) := by
        simp [faiss_loader_step, hdup]
      rw [hstep]
      obtain ⟨d, hd, hh, ht⟩ :=
        ih h (es ++ [(it.1.1, { it.1.2 with metadata := it.2 })])
      refine ⟨d, hd, hh, fun e he => ?_⟩
      rcases ht e he with h1 | ⟨x, hx, hex⟩
      · rcases List.mem_append.mp h1 with h2 | h2
        · exact Or.inl h2
        · refine Or.inr ⟨it, List.mem_cons_self it rest, ?_⟩
          simpa using h2
      · exact Or.inr ⟨x, List.mem_cons_of_mem _ hx, hex⟩

/-- C10.  The first shard received by a `faiss_loader` worker becomes the
accumulator unchanged — in particular the metadata dispatched with that
first work item is never attached to its document — while every entry the
accumulator gains afterwards is a later work item's document with the
dispatched metadata attached before merging. -/
theorem faiss_loader_first_shard {M : Type}
    (first : (String × LoadedDoc M) × M)
    (rest : List ((String × LoadedDoc M) × M)) :
    ∃ d, faiss_loader (first :: rest) = some d ∧
      d.head? = some first.1 ∧
      ∀ e ∈ d.tail, ∃ item ∈ rest,
        e = (item.1.1, { item.1.2 with metadata := item.2 }) := by
  unfold faiss_loader
  simp only [List.foldl_cons]
  have hfirst : faiss_loader_step none first = some [first.1] := rfl
  rw [hfirst]
  obtain ⟨d, hd, hh, ht⟩ := faiss_loader_go rest first.1 []
  refine ⟨d, hd, hh, fun e he => ?_⟩
  rcases ht e he with h1 | h1
  · simp at h1
  · exact h1

/-- C10 (witness for `faiss_loader_first_shard` on a two-item run: the
first document keeps metadata 0 though 99 was dispatched with it; the
second document receives the dispatched metadata 5). -/
theorem faiss_loader_first_shard_witness :
    ∃ d, faiss_loader
        [(("id1", ({ content := "c1", metadata := 0 } : LoadedDoc ℕ)), 99),
         (("id2", { content := "c2", metadata := 0 }), 5)] = some d ∧
      d.head? = some ("id1", ({ content := "c1", metadata := 0 } : LoadedDoc ℕ)) ∧
      ∀ e ∈ d.tail, ∃ item ∈ [(("id2", ({ content := "c2", metadata := 0 } : LoadedDoc ℕ)), 5)],
        e = (item.1.1, { item.1.2 with metadata := item.2 }) :=
  faiss_loader_first_shard
    (("id1", ({ content := "c1", metadata := 0 } : LoadedDoc ℕ)), 99)
    [(("id2", { content := "c2", metadata := 0 }), 5)]

/-! ## C9: intermediate-answer filtering -/

/-- C9.  `check_intermediate_answer` returns `false` exactly when the
answer contains the literal tag `<answer>IRRELEVANT</answer>` or contains
the standalone word IRRELEVANT while being shorter than 20 characters;
consequently every answer of length at least 20 without the literal tag is
kept, even when the standalone word IRRELEVANT occurs in it. -/
theorem check_intermediate_answer_spec (ans : List Char) :
    (check_intermediate_answer ans = false ↔
      (containsList "<answer>IRRELEVANT</answer>".toList ans = true ∨
        (wordSearch "IRRELEVANT".toList none ans = true ∧ ans.length < 20))) ∧
    (20 ≤ ans.length →
      containsList "<answer>IRRELEVANT</answer>".toList ans = false →
      check_intermediate_answer ans = true) := by
  have hlen : "IRRELEVANT".length * 2 = 20 := rfl
  unfold check_intermediate_answer
  rw [hlen]
  generalize containsList "<answer>IRRELEVANT</answer>".toList ans = a
  generalize wordSearch "IRRELEVANT".toList none ans = b
  cases a <;> cases b <;> by_cases h : ans.length < 20 <;>
    simp [h] <;> omega

/-- C9 (witness for `check_intermediate_answer_spec`: a 33-character
answer containing the standalone word IRRELEVANT but no literal tag is
kept). -/
theorem check_intermediate_answer_spec_witness :
    check_intermediate_answer "this is IRRELEVANT but quite long".toList = true :=
  (check_intermediate_answer_spec "this is IRRELEVANT but quite long".toList).2
    (by decide) (by decide)

/-! ## C2: index merge engine -/

/-- Helper for C2: with a quiet oracle (no exogenous failures) and
duplicate-free incoming ids, the item-by-item loop appends exactly the
entries whose id is fresh with respect to the original accumulator and
collects the documents of colliding ids in order. -/
theorem iter_merge_go_quiet {α : Type} (oracle : String → Option String)
    (hq : ∀ i, oracle i = none) (db2 : List (String × α)) :
    ∀ (db1 : List (String × α)) (failed : List α),
    (db2.map Prod.fst).Nodup →
    iter_merge_go oracle db1 db2 failed =
      Except.ok
        (db1 ++ db2.filter (fun p => decide (p.1 ∉ db1.map Prod.fst)),
         failed ++ (db2.filter (fun p => decide (p.1 ∈ db1.map Prod.fst))).map Prod.snd) := by
  induction db2 with
  | nil => intro db1 failed _; simp [iter_merge_go]
  | cons p rest ih =>
    intro db1 failed hnd
    rw [List.map_cons, List.nodup_cons] at hnd
    obtain ⟨hp1, hnd'⟩ := hnd
    by_cases hp : p.1 ∈ db1.map Prod.fst
    · have hstep : add_embeddings oracle db1 p = AddOutcome.dupError := by
        simp [add_embeddings, hq p.1, hp]
      have hgo : iter_merge_go oracle db1 (p :: rest) failed =
          iter_merge_go oracle db1 rest (failed ++ [p.2]) := by
        rw [iter_merge_go, hstep]
      rw [hgo, ih db1 (failed ++ [p.2]) hnd']
      simp [hp, List.filter_cons]
    · have hstep : add_embeddings oracle db1 p = AddOutcome.ok (db1 ++ [p]) := by
        simp [add_embeddings, hq p.1, hp]
      have hgo : iter_merge_go oracle db1 (p :: rest) failed =
          iter_merge_go oracle (db1 ++ [p]) rest failed := by
        rw [iter_merge_go, hstep]
      rw [hgo, ih (db1 ++ [p]) failed hnd']
      have hqp : ∀ q ∈ rest, q.1 ≠ p.1 := by
        intro q hqr hEq
        exact hp1 (hEq ▸ List.mem_map_of_mem Prod.fst hqr)
      have hmem : ∀ q ∈ rest, (decide (q.1 ∉ (db1 ++ [p]).map Prod.fst)) =
          (decide (q.1 ∉ db1.map Prod.fst)) := by
        intro q hqr
        simp [List.mem_append, hqp q hqr]
      have hmem2 : ∀ q ∈ rest, (decide (q.1 ∈ (db1 ++ [p]).map Prod.fst)) =
          (decide (q.1 ∈ db1.map Prod.fst)) := by
        intro q hqr
        simp [List.mem_append, hqp q hqr]
      rw [List.filter_congr hmem, List.filter_congr hmem2]
      simp [hp, List.filter_cons, List.append_assoc]

/-- Helper for C2: when some entry of `db2` triggers an exogenous
(non-duplicate) failure, the item-by-item loop re-raises it. -/
theorem iter_merge_go_raises {α : Type} (oracle : String → Option String)
    (db2 : List (String × α)) :
    ∀ (db1 : List (String × α)) (failed : List α),
    (∃ p ∈ db2, oracle p.1 ≠ none) →
    ∃ e, iter_merge_go oracle db1 db2 failed = Except.error e := by
  induction db2 with
  | nil => intro db1 failed hex; simp at hex
  | cons p rest ih =>
    intro db1 failed hex
    by_cases hp : oracle p.1 = none
    · have hrest : ∃ q ∈ rest, oracle q.1 ≠ none := by
        obtain ⟨q, hq, hqo⟩ := hex
        rcases List.mem_cons.mp hq with rfl | hq'
        · exact absurd hp hqo
        · exact ⟨q, hq', hqo⟩
      by_cases hdup : p.1 ∈ db1.map Prod.fst
      · have hstep : add_embeddings oracle db1 p = AddOutcome.dupError := by
          simp [add_embeddings, hp, hdup]
        have hgo : iter_merge_go oracle db1 (p :: rest) failed =
            iter_merge_go oracle db1 rest (failed ++ [p.2]) := by
          rw [iter_merge_go, hstep]
        rw [hgo]
        exact ih db1 (failed ++ [p.2]) hrest
      · have hstep : add_embeddings oracle db1 p = AddOutcome.ok (db1 ++ [p]) := by
          simp [add_embeddings, hp, hdup]
        have hgo : iter_merge_go oracle db1 (p :: rest) failed =
            iter_merge_go oracle (db1 ++ [p]) rest failed := by
          rw [iter_merge_go, hstep]
        rw [hgo]
        exact ih (db1 ++ [p]) failed hrest
    · obtain ⟨e, he⟩ := Option.ne_none_iff_exists'.mp hp
      have hstep : add_embeddings oracle db1 p = AddOutcome.otherError e := by
        simp [add_embeddings, he]
      have hgo : iter_merge_go oracle db1 (p :: rest) failed = Except.error e := by
        rw [iter_merge_go, hstep]
      exact ⟨e, hgo⟩

/-- Helper for C2: the ids of the original store plus the fresh entries of
the other store are exactly the union of the two id sets. -/
theorem fresh_filter_toFinset {α : Type} (db1 db2 : List (String × α)) :
    ((db1 ++ db2.filter (fun p => decide (p.1 ∉ db1.map Prod.fst))).map Prod.fst).toFinset =
      (db1.map Prod.fst).toFinset ∪ (db2.map Prod.fst).toFinset := by
  ext a
  simp only [List.map_append, List.toFinset_append, Finset.mem_union, List.mem_toFinset]
  constructor
  · rintro (ha | ha)
    · exact Or.inl ha
    · obtain ⟨p, hp, rfl⟩ := List.mem_map.mp ha
      exact Or.inr (List.mem_map_of_mem Prod.fst (List.mem_filter.mp hp).1)
  · rintro (ha | ha)
    · exact Or.inl ha
    · obtain ⟨p, hp, rfl⟩ := List.mem_map.mp ha
      by_cases hw : p.1 ∈ db1.map Prod.fst
      · exact Or.inl hw
      · exact Or.inr (List.mem_map_of_mem Prod.fst
          (List.mem_filter.mpr ⟨hp, by simp [hw]⟩))

/-- C2.  For shards sharing at least one document id and duplicate-free
key sets, the bulk `merge_from` is rejected, `iter_merge` re-inserts
`db2`'s entries one by one, and — when duplicate ids are the only failure
cause — no error is raised, the merged document store carries exactly the
union of the two id sets (duplicates collapsed, so its size is the
cardinal of the union) and the failed list collects precisely the
documents of the colliding ids; an error whose cause is not a duplicate id
propagates. -/
theorem load_embeddings_merge_spec {α : Type} (oracle : String → Option String)
    (db1 db2 : List (String × α))
    (h1 : (db1.map Prod.fst).Nodup) (h2 : (db2.map Prod.fst).Nodup)
    (hshare : ∃ i, i ∈ db1.map Prod.fst ∧ i ∈ db2.map Prod.fst) :
    ((∀ i, oracle i = none) →
      ∃ r, load_embeddings_merge oracle db1 db2 = Except.ok r ∧
        (r.1.map Prod.fst).toFinset =
          (db1.map Prod.fst).toFinset ∪ (db2.map Prod.fst).toFinset ∧
        r.1.length = ((db1.map Prod.fst).toFinset ∪ (db2.map Prod.fst).toFinset).card ∧
        r.2 = (db2.filter (fun p => decide (p.1 ∈ db1.map Prod.fst))).map Prod.snd) ∧
    ((∃ p ∈ db2, oracle p.1 ≠ none) →
      ∃ e, load_embeddings_merge oracle db1 db2 = Except.error e) := by
  have hbulk : merge_from db1 db2 = none := by
    obtain ⟨i, hi1, hi2⟩ := hshare
    obtain ⟨p, hp2, hpi⟩ := List.mem_map.mp hi2
    unfold merge_from
    rw [if_pos]
    exact List.any_eq_true.mpr ⟨p, hp2, by simp [hpi, hi1]⟩
  have hmain : load_embeddings_merge oracle db1 db2 = iter_merge_go oracle db1 db2 [] := by
    unfold load_embeddings_merge iter_merge
    rw [hbulk]
  constructor
  · intro hq
    rw [hmain, iter_merge_go_quiet oracle hq db2 db1 [] h2]
    refine ⟨_, rfl, fresh_filter_toFinset db1 db2, ?_, by simp⟩
    have hfresh : ((db2.filter
        (fun p => decide (p.1 ∉ db1.map Prod.fst))).map Prod.fst).Nodup :=
      List.Nodup.sublist (List.Sublist.map Prod.fst (List.filter_sublist db2)) h2
    have hdisj : ∀ a ∈ db1.map Prod.fst,
        a ∉ (db2.filter (fun p => decide (p.1 ∉ db1.map Prod.fst))).map Prod.fst := by
      intro a ha hmem
      obtain ⟨p, hp, rfl⟩ := List.mem_map.mp hmem
      exact (of_decide_eq_true (List.mem_filter.mp hp).2) ha
    have hnodup : ((db1 ++ db2.filter
        (fun p => decide (p.1 ∉ db1.map Prod.fst))).map Prod.fst).Nodup := by
      rw [List.map_append]
      exact List.nodup_append.mpr ⟨h1, hfresh, fun a ha => hdisj a ha⟩
    calc (db1 ++ db2.filter (fun p => decide (p.1 ∉ db1.map Prod.fst))).length
        = ((db1 ++ db2.filter
            (fun p => decide (p.1 ∉ db1.map Prod.fst))).map Prod.fst).length := by
          rw [List.length_map]
      _ = ((db1 ++ db2.filter
            (fun p => decide (p.1 ∉ db1.map Prod.fst))).map Prod.fst).toFinset.card :=
          (List.toFinset_card_of_nodup hnodup).symm
      _ = ((db1.map Prod.fst).toFinset ∪ (db2.map Prod.fst).toFinset).card := by
          rw [fresh_filter_toFinset db1 db2]
  · intro hex
    rw [hmain]
    exact iter_merge_go_raises oracle db2 db1 [] hex

/-- C2 (witness for `load_embeddings_merge_spec` on shards sharing id
"b": merged size 3 = card of the union, failed list holds the colliding
document). -/
theorem load_embeddings_merge_spec_witness :
    ∃ r, load_embeddings_merge (fun _ => none)
        [("a", 0), ("b", 1)] [("b", 2), ("c", 3)] = Except.ok r ∧
      (r.1.map Prod.fst).toFinset =
        ((["a", "b"] : List String).toFinset ∪ (["b", "c"] : List String).toFinset) ∧
      r.1.length = ((["a", "b"] : List String).toFinset ∪ (["b", "c"] : List String).toFinset).card ∧
      r.2 = ([("b", 2), ("c", 3)].filter
        (fun p => decide (p.1 ∈ ([("a", 0), ("b", 1)] : List (String × ℕ)).map Prod.fst))).map Prod.snd :=
  (load_embeddings_merge_spec (fun _ => none) [("a", 0), ("b", 1)] [("b", 2), ("c", 3)]
    (by decide) (by decide) ⟨"b", by decide, by decide⟩).1 (fun _ => rfl)

/-! ## C1: search integrity patch -/

/-- Helper for C1: the raw search always returns exactly `n` candidates
(padding with the `-1` sentinel beyond the end of the index). -/
theorem searchRaw_length (ranking : List (ℤ × ℤ)) (n : ℕ) :
    (searchRaw ranking n).length = n := by
  unfold searchRaw
  rw [List.length_append, List.length_take, List.length_replicate]
  omega

/-- Helper for C1: asking for one more candidate appends exactly one entry
to the raw search result. -/
theorem searchRaw_succ (ranking : List (ℤ × ℤ)) (n : ℕ) :
    ∃ x, searchRaw ranking (n + 1) = searchRaw ranking n ++ [x] := by
  unfold searchRaw
  by_cases h : n < ranking.length
  · refine ⟨ranking.get ⟨n, h⟩, ?_⟩
    rw [List.take_succ]
    have h1 : ranking[n]? = some (ranking.get ⟨n, h⟩) := by
      rw [List.getElem?_eq_getElem h]
      rfl
    rw [h1]
    have h2 : n + 1 - ranking.length = 0 := by omega
    have h3 : n - ranking.length = 0 := by omega
    simp [h2, h3]
  · push_neg at h
    refine ⟨(0, -1), ?_⟩
    have h1 : ranking.take (n + 1) = ranking := List.take_of_length_le (by omega)
    have h2 : ranking.take n = ranking := List.take_of_length_le h
    rw [h1, h2]
    have h3 : n + 1 - ranking.length = (n - ranking.length) + 1 := by omega
    rw [h3, List.replicate_succ']
    rw [← List.append_assoc]

/-- Helper for C1: the number of valid candidates among the top `n + 1`
equals that among the top `n`, or exceeds it by one. -/
theorem filter_searchRaw_succ (ranking : List (ℤ × ℤ)) (valid : ℤ → Bool) (n : ℕ) :
    (filterValid valid (searchRaw ranking (n + 1))).length =
      (filterValid valid (searchRaw ranking n)).length ∨
    (filterValid valid (searchRaw ranking (n + 1))).length =
      (filterValid valid (searchRaw ranking n)).length + 1 := by
  obtain ⟨x, hx⟩ := searchRaw_succ ranking n
  unfold filterValid
  rw [hx, List.filter_append]
  by_cases h : valid x.2
  · right
    simp [h]
  · left
    simp [h]

/-- Helper for C1: the valid-candidate count is monotone in the request
size. -/
theorem filter_searchRaw_mono (ranking : List (ℤ × ℤ)) (valid : ℤ → Bool)
    (n k : ℕ) :
    (filterValid valid (searchRaw ranking n)).length ≤
      (filterValid valid (searchRaw ranking (n + k))).length := by
  induction k with
  | zero => simp
  | succ k ih =>
    rcases filter_searchRaw_succ ranking valid (n + k) with h | h <;>
      rw [show n + (k + 1) = (n + k) + 1 from rfl, h] <;> omega

/-- Helper for C1: enlarging the request by `k` gains at most `k` valid
candidates. -/
theorem filter_searchRaw_le_add (ranking : List (ℤ × ℤ)) (valid : ℤ → Bool)
    (n k : ℕ) :
    (filterValid valid (searchRaw ranking (n + k))).length ≤
      (filterValid valid (searchRaw ranking n)).length + k := by
  induction k with
  | zero => simp
  | succ k ih =>
    rcases filter_searchRaw_succ ranking valid (n + k) with h | h <;>
      rw [show n + (k + 1) = (n + k) + 1 from rfl, h] <;> omega

/-- Helper for C1: at most `n` of the top `n` candidates are valid. -/
theorem filter_searchRaw_le (ranking : List (ℤ × ℤ)) (valid : ℤ → Bool) (n : ℕ) :
    (filterValid valid (searchRaw ranking n)).length ≤ n := by
  calc (filterValid valid (searchRaw ranking n)).length
      ≤ (searchRaw ranking n).length := List.length_filter_le _ _
    _ = n := searchRaw_length ranking n

/-- Helper for C1: as long as the valid-candidate count of the current
request stays at most `k` (which the deficit arithmetic preserves), the
retry loop never trips its assertions and returns at most `k` candidates,
all of them valid. -/
theorem retryLoop_ok (ranking : List (ℤ × ℤ)) (valid : ℤ → Bool) (k : ℕ) :
    ∀ (fuel diff : ℕ),
    (filterValid valid (searchRaw ranking (k + diff))).length ≤ k →
    ∃ l, retryLoop ranking valid k diff fuel = Except.ok l ∧
      l.length ≤ k ∧ ∀ p ∈ l, valid p.2 = true := by
  intro fuel
  induction fuel with
  | zero =>
    intro diff h
    unfold retryLoop
    rw [if_neg (by omega)]
    refine ⟨_, rfl, h, ?_⟩
    intro p hp
    unfold filterValid at hp
    exact (List.mem_filter.mp hp).2
  | succ f ih =>
    intro diff h
    unfold retryLoop
    rw [if_neg (by omega)]
    by_cases hk : (filterValid valid (searchRaw ranking (k + diff))).length = k
    · rw [if_pos hk]
      refine ⟨_, rfl, le_of_eq hk, ?_⟩
      intro p hp
      unfold filterValid at hp
      exact (List.mem_filter.mp hp).2
    · rw [if_neg hk]
      apply ih
      by_cases hcase :
          k - (filterValid valid (searchRaw ranking (k + diff))).length ≤ diff
      · have hmono := filter_searchRaw_mono ranking valid
          (k + (k - (filterValid valid (searchRaw ranking (k + diff))).length))
          (diff - (k - (filterValid valid (searchRaw ranking (k + diff))).length))
        have harg :
            k + (k - (filterValid valid (searchRaw ranking (k + diff))).length) +
              (diff - (k - (filterValid valid (searchRaw ranking (k + diff))).length)) =
            k + diff := by omega
        rw [harg] at hmono
        omega
      · have hadd := filter_searchRaw_le_add ranking valid (k + diff)
          ((k - (filterValid valid (searchRaw ranking (k + diff))).length) - diff)
        have harg :
            k + diff +
              ((k - (filterValid valid (searchRaw ranking (k + diff))).length) - diff) =
            k + (k - (filterValid valid (searchRaw ranking (k + diff))).length) := by
          omega
        rw [harg] at hadd
        omega

/-- C1 (amended).  For every ranking, validity mask and request size `k`,
the patched search never raises: it returns a list of at most `k`
candidates all of whose ids pass the docstore mask (exactly `k` when no
deficit remains), re-issuing the search at most 10 times. -/
theorem patchedSearch_never_raises (ranking : List (ℤ × ℤ)) (valid : ℤ → Bool)
    (k : ℕ) :
    ∃ l, patchedSearch ranking valid k = Except.ok l ∧
      l.length ≤ k ∧ ∀ p ∈ l, valid p.2 = true := by
  unfold patchedSearch
  have hle : (filterValid valid (searchRaw ranking k)).length ≤ k :=
    filter_searchRaw_le ranking valid k
  rw [if_neg (by omega)]
  by_cases hk : (filterValid valid (searchRaw ranking k)).length = k
  · rw [if_pos hk]
    have hsub : filterValid valid (searchRaw ranking k) = searchRaw ranking k := by
      have hs : List.Sublist (filterValid valid (searchRaw ranking k))
          (searchRaw ranking k) :=
        List.filter_sublist _
      have hl : (filterValid valid (searchRaw ranking k)).length =
          (searchRaw ranking k).length := by
        rw [searchRaw_length]
        exact hk
      exact hs.eq_of_length hl
    refine ⟨_, rfl, le_of_eq (searchRaw_length ranking k), ?_⟩
    intro p hp
    have hp2 : p ∈ filterValid valid (searchRaw ranking k) := by
      rw [hsub]
      exact hp
    unfold filterValid at hp2
    exact (List.mem_filter.mp hp2).2
  · rw [if_neg hk]
    apply retryLoop_ok
    have hadd := filter_searchRaw_le_add ranking valid k
      (k - (filterValid valid (searchRaw ranking k)).length)
    omega

/-- C1 (counterexample).  With three invalid ids ranked ahead of the only
valid one, a request for `k = 1` returns no id at all even though the
index holds a valid id: the re-issued request size `k + diff` never grows
past 2, so after 10 retries the patched search returns an empty result —
the claim "returns exactly k valid ids whenever k ≤ number of valid ids"
is false (while, per the amended claim, nothing is raised). -/
theorem patchedSearch_misses_valid_ids :
    patchedSearch [((1 : ℤ), (9 : ℤ)), (1, 8), (1, 7), (1, 0)]
        (fun i => decide (i = 0)) 1 = Except.ok [] ∧
    1 ≤ (filterValid (fun i => decide (i = 0))
        [((1 : ℤ), (9 : ℤ)), (1, 8), (1, 7), (1, 0)]).length :=
  ⟨rfl, by decide⟩

/-! ## C4 and C5: semantic bucketing -/

/-- Helper: the order-preserving dedup loop keeps its accumulator free of
duplicates. -/
theorem foldl_dedup_nodup {γ : Type} [DecidableEq γ] (l : List γ) :
    ∀ acc : List γ, acc.Nodup →
    (l.foldl (fun acc t => if t ∈ acc then acc else acc ++ [t]) acc).Nodup := by
  induction l with
  | nil => intro acc h; simpa
  | cons t ts ih =>
    intro acc h
    simp only [List.foldl_cons]
    by_cases ht : t ∈ acc
    · rw [if_pos ht]
      exact ih acc h
    · rw [if_neg ht]
      refine ih _ ?_
      rw [List.nodup_append]
      refine ⟨h, List.nodup_singleton t, ?_⟩
      intro a ha hb
      simp only [List.mem_singleton] at hb
      exact ht (hb ▸ ha)

/-- Helper: membership in the dedup accumulator. -/
theorem foldl_dedup_mem {γ : Type} [DecidableEq γ] (l : List γ) :
    ∀ (acc : List γ) (a : γ),
    (a ∈ l.foldl (fun acc t => if t ∈ acc then acc else acc ++ [t]) acc ↔
      a ∈ acc ∨ a ∈ l) := by
  induction l with
  | nil => intro acc a; simp
  | cons t ts ih =>
    intro acc a
    simp only [List.foldl_cons]
    by_cases ht : t ∈ acc
    · rw [if_pos ht, ih]
      constructor
      · rintro (h | h)
        · exact Or.inl h
        · exact Or.inr (List.mem_cons_of_mem _ h)
      · rintro (h | h)
        · exact Or.inl h
        · rcases List.mem_cons.mp h with rfl | h2
          · exact Or.inl ht
          · exact Or.inr h2
    · rw [if_neg ht, ih]
      simp only [List.mem_append, List.mem_singleton, List.mem_cons]
      tauto

/-- Helper: `dedup_texts` has no duplicates. -/
theorem dedup_texts_nodup (l : List String) : (dedup_texts l).Nodup := by
  unfold dedup_texts
  exact foldl_dedup_nodup l [] List.nodup_nil

/-- Helper: `dedup_nat` has no duplicates. -/
theorem dedup_nat_nodup (l : List ℕ) : (dedup_nat l).Nodup := by
  unfold dedup_nat
  exact foldl_dedup_nodup l [] List.nodup_nil

/-- Helper: `dedup_nat` keeps exactly the members of its input. -/
theorem dedup_nat_mem (l : List ℕ) (a : ℕ) : a ∈ dedup_nat l ↔ a ∈ l := by
  unfold dedup_nat
  rw [foldl_dedup_mem]
  simp

/-- Helper: inserting into a sorted label list is a permutation of
consing. -/
theorem insert_sorted_perm (x : ℕ) (l : List ℕ) :
    (insert_sorted x l).Perm (x :: l) := by
  induction l with
  | nil => simp [insert_sorted]
  | cons y ys ih =>
    unfold insert_sorted
    by_cases h : x ≤ y
    · rw [if_pos h]
    · rw [if_neg h]
      exact (ih.cons y).trans (List.Perm.swap x y ys)

/-- Helper: the insertion sort permutes its input. -/
theorem sort_nat_perm (l : List ℕ) : (sort_nat l).Perm l := by
  induction l with
  | nil => simp [sort_nat]
  | cons x xs ih =>
    unfold sort_nat at ih ⊢
    rw [List.foldr_cons]
    exact (insert_sorted_perm x _).trans (ih.cons x)

/-- Helper: the label list `np.unique(cluster_labels)` is duplicate-free. -/
theorem uniq_sorted_nodup (l : List ℕ) : (uniq_sorted l).Nodup :=
  (sort_nat_perm (dedup_nat l)).nodup_iff.mpr (dedup_nat_nodup l)

/-- Helper: the label list has the same members as the label array. -/
theorem uniq_sorted_mem (l : List ℕ) (a : ℕ) : a ∈ uniq_sorted l ↔ a ∈ l := by
  unfold uniq_sorted
  rw [(sort_nat_perm (dedup_nat l)).mem_iff, dedup_nat_mem]

/-- Helper: counting inside a flattened map is summing the counts. -/
theorem count_flatten_sum {β : Type} (f : β → List ℕ) (l : List β) (a : ℕ) :
    ((l.map f).flatten).count a = (l.map (fun b => (f b).count a)).sum := by
  induction l with
  | nil => simp
  | cons x xs ih => simp [List.count_append, ih]

/-- Helper: summing an indicator over a list counts the occurrences. -/
theorem sum_map_indicator (v : ℕ) (l : List ℕ) :
    (l.map (fun lab => if lab = v then 1 else 0)).sum = l.count v := by
  induction l with
  | nil => simp
  | cons x xs ih =>
    simp only [List.map_cons, List.sum_cons, List.count_cons, ih]
    by_cases h : x = v <;> simp [h] <;> omega

/-- Helper for C4: the per-label index masks partition `range n`: their
concatenation, taken over the distinct labels, is a permutation of all
indices. -/
theorem masks_flatten_perm (cl : List ℕ) :
    (((uniq_sorted cl).map (label_mask cl cl.length)).flatten).Perm
      (List.range cl.length) := by
  rw [List.perm_iff_count]
  intro a
  rw [count_flatten_sum]
  by_cases ha : a < cl.length
  · obtain ⟨v, hv⟩ : ∃ v, cl[a]? = some v := by
      rw [List.getElem?_eq_getElem ha]
      exact ⟨_, rfl⟩
    have hvcl : v ∈ cl := by
      have := List.getElem?_eq_some_iff.mp hv
      obtain ⟨hlt, hEq⟩ := this
      exact hEq ▸ List.getElem_mem hlt
    have hvmem : v ∈ uniq_sorted cl := (uniq_sorted_mem cl v).mpr hvcl
    have hmask : ∀ lab, (label_mask cl cl.length lab).count a =
        if lab = v then 1 else 0 := by
      intro lab
      unfold label_mask
      by_cases hlv : lab = v
      · subst hlv
        have hp : (cl[a]? == some lab) = true := by simp [hv]
        rw [if_pos rfl]
        apply List.count_eq_one_of_mem ((List.nodup_range _).filter _)
        exact List.mem_filter.mpr ⟨List.mem_range.mpr ha, hp⟩
      · rw [if_neg hlv]
        apply List.count_eq_zero_of_not_mem
        intro hmem
        have h2 := (List.mem_filter.mp hmem).2
        rw [hv] at h2
        have hveq : v = lab := by simpa using h2
        exact hlv hveq.symm
    have hcongr : ((uniq_sorted cl).map (fun b => (label_mask cl cl.length b).count a)) =
        ((uniq_sorted cl).map (fun lab => if lab = v then 1 else 0)) :=
      List.map_congr_left (fun lab _ => hmask lab)
    rw [hcongr, sum_map_indicator,
      List.count_eq_one_of_mem (uniq_sorted_nodup cl) hvmem,
      List.count_eq_one_of_mem (List.nodup_range _) (List.mem_range.mpr ha)]
  · have hmask : ∀ lab, (label_mask cl cl.length lab).count a = 0 := by
      intro lab
      apply List.count_eq_zero_of_not_mem
      intro hmem
      exact ha (List.mem_range.mp (List.mem_of_mem_filter hmem))
    have hcongr : ((uniq_sorted cl).map (fun b => (label_mask cl cl.length b).count a)) =
        ((uniq_sorted cl).map (fun _ => 0)) :=
      List.map_congr_left (fun lab _ => hmask lab)
    rw [hcongr, List.count_eq_zero_of_not_mem (fun hmem => ha (List.mem_range.mp hmem))]
    simp

/-- Helper for C4/C5: the packing fold only moves texts between the closed
buckets and the bucket being filled; flattening recovers exactly the texts
of the visited indices, in order. -/
theorem pack_foldl_inv (texts : List String) (sizes : String → ℕ) (idxs : List ℕ) :
    ∀ st : List (List String) × List String × ℕ,
    (idxs.foldl (pack_step texts sizes) st).1.flatten ++
      (idxs.foldl (pack_step texts sizes) st).2.1 =
    (st.1.flatten ++ st.2.1) ++ idxs.map (fun i => texts.getD i "") := by
  induction idxs with
  | nil => intro st; simp
  | cons i is ih =>
    intro st
    rw [List.foldl_cons, ih]
    unfold pack_step
    by_cases h : st.2.2 + sizes (texts.getD i "") > 500
    · rw [if_pos h]
      simp [List.append_assoc]
    · rw [if_neg h]
      simp [List.append_assoc]

/-- Helper for C4/C5: flattening the buckets packed from one cluster gives
back the cluster's texts. -/
theorem pack_cluster_flatten (texts : List String) (sizes : String → ℕ)
    (idxs : List ℕ) :
    (pack_cluster texts sizes idxs).flatten =
      idxs.map (fun i => texts.getD i "") := by
  unfold pack_cluster
  rw [List.flatten_append]
  have h := pack_foldl_inv texts sizes idxs ([], [], 0)
  simpa using h

/-- Helper for C4: reading every position of a list in order gives back
the list. -/
theorem map_getD_range (l : List String) :
    (List.range l.length).map (fun i => l.getD i "") = l := by
  induction l with
  | nil => simp
  | cons a t ih =>
    rw [List.length_cons, List.range_succ_eq_map, List.map_cons, List.map_map]
    have hfun : ((fun i => (a :: t).getD i "") ∘ Nat.succ) =
        (fun i => t.getD i "") := by
      funext i
      rfl
    rw [hfun, ih]
    rfl

/-- Helper for C4: flattening all packed clusters gives the texts of all
mask indices. -/
theorem flatten_map_pack (texts : List String) (sizes : String → ℕ)
    (masks : List (List ℕ)) :
    ((masks.map (pack_cluster texts sizes)).flatten).flatten =
      masks.flatten.map (fun i => texts.getD i "") := by
  induction masks with
  | nil => simp
  | cons m ms ih =>
    simp only [List.map_cons, List.flatten_cons, List.flatten_append,
      List.map_append]
    rw [pack_cluster_flatten, ih]

/-- Helper for C4: a successful `fill_buckets` partitions the texts: the
flattened buckets are a permutation of the (deduplicated) input texts. -/
theorem fill_buckets_ok_flatten (texts : List String) (sizes : String → ℕ)
    (cl : List ℕ) (buckets : List (List String))
    (h : fill_buckets texts sizes cl = Except.ok buckets) :
    buckets.flatten.Perm texts := by
  unfold fill_buckets at h
  by_cases hlen : cl.length ≠ texts.length
  · rw [if_pos hlen] at h
    simp at h
  push_neg at hlen
  rw [if_neg (by simp [hlen])] at h
  by_cases hlab : (uniq_sorted cl).length ≤ 1
  · rw [if_pos hlab] at h
    simp at h
  rw [if_neg hlab] at h
  by_cases hall : ((uniq_sorted cl).map (label_mask cl texts.length)).all
      (fun m => decide (1 < m.length))
  · rw [if_pos hall] at h
    simp only [Except.ok.injEq] at h
    subst h
    rw [flatten_map_pack]
    have hmasks : (((uniq_sorted cl).map (label_mask cl texts.length)).flatten).Perm
        (List.range texts.length) := by
      rw [← hlen]
      exact masks_flatten_perm cl
    have := hmasks.map (fun i => texts.getD i "")
    rw [map_getD_range] at this
    exact this
  · rw [if_neg hall] at h
    simp at h

/-- Helper for C4: keyed insertion is a permutation of consing. -/
theorem insert_by_key_perm (key : String → ℕ) (x : String) (l : List String) :
    (insert_by_key key x l).Perm (x :: l) := by
  induction l with
  | nil => simp [insert_by_key]
  | cons y ys ih =>
    unfold insert_by_key
    by_cases h : key x ≤ key y
    · rw [if_pos h]
    · rw [if_neg h]
      exact (ih.cons y).trans (List.Perm.swap x y ys)

/-- Helper for C4: the keyed insertion sort permutes its input. -/
theorem sort_by_key_perm (key : String → ℕ) (l : List String) :
    (sort_by_key key l).Perm l := by
  induction l with
  | nil => simp [sort_by_key]
  | cons x xs ih =>
    unfold sort_by_key at ih ⊢
    rw [List.foldr_cons]
    exact (insert_by_key_perm key x _).trans (ih.cons x)

/-- Helper for C4: re-sorting every bucket by leaf order permutes the
flattened contents. -/
theorem map_sort_flatten_perm (texts : List String) (order : ℕ → ℕ)
    (l : List (List String)) :
    ((l.map (sort_bucket texts order)).flatten).Perm l.flatten := by
  induction l with
  | nil => simp
  | cons b bs ih =>
    simp only [List.map_cons, List.flatten_cons]
    exact List.Perm.append (sort_by_key_perm _ b) ih

/-- Helper for C4: one successful rebalancing step moves texts between
neighbouring buckets without changing the flattened contents. -/
theorem rebalance_step_flatten (sizes : String → ℕ)
    (buckets out : List (List String)) (ib : ℕ)
    (h : rebalance_step sizes buckets ib = Except.ok out) :
    out.flatten = buckets.flatten := by
  unfold rebalance_step at h
  by_cases hemp : (buckets.getD ib []).isEmpty
  · rw [if_pos hemp] at h
    simp at h
  rw [if_neg hemp] at h
  by_cases hone : (buckets.getD ib []).length == 1
  case neg =>
    rw [if_neg hone] at h
    simp only [Except.ok.injEq] at h
    rw [h]
  case pos =>
  rw [if_pos hone] at h
  by_cases hsz : sizes (buckets.getD ib [] |>.getD 0 "") ≤ 500
  · rw [if_pos hsz] at h
    simp at h
  rw [if_neg hsz] at h
  by_cases hib : (ib == 0)
  case neg =>
    rw [if_neg hib] at h
    simp at h
  case pos =>
  rw [if_pos hib] at h
  have hib0 : ib = 0 := by simpa using hib
  subst hib0
  match hb : buckets, h with
  | [], h => simp at h
  | [b0], h => simp at h
  | b0 :: b1 :: rest, h =>
    simp only [List.getElem?_cons_succ, List.getElem?_cons_zero] at h
    have hb0 : b0.length = 1 := by
      simpa using hone
    obtain ⟨t0, ht0⟩ := List.length_eq_one.mp hb0
    subst ht0
    by_cases hb1e : b1.isEmpty
    · rw [if_pos hb1e] at h
      simp at h
    rw [if_neg hb1e] at h
    by_cases hb1one : (b1.length == 1)
    · rw [if_pos hb1one] at h
      simp only [Except.ok.injEq] at h
      rw [← h]
      simp
    · rw [if_neg hb1one] at h
      simp only [Except.ok.injEq] at h
      rw [← h]
      match b1, hb1e with
      | h1 :: tl, _ => simp

/-- Helper for C4: the whole rebalancing loop preserves the flattened
contents. -/
theorem rebalance_go_flatten (sizes : String → ℕ) :
    ∀ (idxs : List ℕ) (buckets out : List (List String)),
    rebalance_go sizes idxs buckets = Except.ok out →
    out.flatten = buckets.flatten := by
  intro idxs
  induction idxs with
  | nil =>
    intro buckets out h
    simp only [rebalance_go, Except.ok.injEq] at h
    rw [h]
  | cons ib rest ih =>
    intro buckets out h
    cases hstep : rebalance_step sizes buckets ib with
    | error e =>
      simp only [rebalance_go, hstep] at h
      exact Except.noConfusion h
    | ok b2 =>
      simp only [rebalance_go, hstep] at h
      rw [ih b2 out h, rebalance_step_flatten sizes buckets b2 ib hstep]

/-- Helper for C4: dropping empty buckets does not change the flattened
contents. -/
theorem flatten_filter_nonempty (l : List (List String)) :
    (l.filter (fun b => !b.isEmpty)).flatten = l.flatten := by
  induction l with
  | nil => rfl
  | cons b bs ih =>
    by_cases hb : b.isEmpty
    · have hbe : b = [] := List.isEmpty_iff.mp hb
      subst hbe
      simp [List.filter_cons, ih]
    · simp [List.filter_cons, hb, ih]

/-- Helper for C4: a successful final check returns the empty-filtered
buckets, all of size at least 2. -/
theorem final_checks_ok (texts : List String) (b3 out : List (List String))
    (h : final_checks texts b3 = Except.ok out) :
    out = b3.filter (fun b => !b.isEmpty) ∧ ∀ b ∈ out, 2 ≤ b.length := by
  unfold final_checks at h
  by_cases hall : (b3.filter (fun b => !b.isEmpty)).all (fun b => decide (2 ≤ b.length))
  case neg =>
    rw [if_pos (by simp [hall])] at h
    simp at h
  rw [if_neg (by simp [hall])] at h
  by_cases hdup : ((b3.filter (fun b => !b.isEmpty)).flatten).Nodup
  case neg =>
    rw [if_pos (by simp [hdup])] at h
    simp at h
  rw [if_neg (by simp [hdup])] at h
  by_cases hmem : ((b3.filter (fun b => !b.isEmpty)).flatten).all
      (fun t => decide (t ∈ texts))
  case neg =>
    rw [if_pos (by simp [hmem])] at h
    simp at h
  rw [if_neg (by simp [hmem])] at h
  simp only [Except.ok.injEq] at h
  refine ⟨h.symm, ?_⟩
  intro b hb
  rw [← h] at hb
  have := List.all_eq_true.mp hall b hb
  simpa using this

/-- Helper for C4: whenever the main (5 or more texts) branch returns, the
flattened buckets are a permutation of the texts and every bucket has at
least 2 texts. -/
theorem semantic_batching_main_flatten (texts : List String)
    (sizes : String → ℕ) (order : ℕ → ℕ) (cl : List ℕ)
    (buckets : List (List String))
    (h : semantic_batching_main texts sizes order cl = Except.ok buckets) :
    buckets.flatten.Perm texts ∧ ∀ b ∈ buckets, 2 ≤ b.length := by
  unfold semantic_batching_main at h
  cases hfill : fill_buckets texts sizes cl with
  | error e => rw [hfill] at h; simp at h
  | ok buckets1 =>
    rw [hfill] at h
    simp only at h
    by_cases hne : buckets1.all (fun b => !b.isEmpty)
    case neg =>
      rw [if_pos (by simp [hne])] at h
      simp at h
    rw [if_neg (by simp [hne])] at h
    by_cases htok : buckets1.all (fun b => decide (bucket_tokens sizes b ≤ 500))
    case neg =>
      rw [if_pos (by simp [htok])] at h
      simp at h
    rw [if_neg (by simp [htok])] at h
    cases hreb : rebalance sizes (buckets1.map (sort_bucket texts order)) with
    | error e => rw [hreb] at h; simp at h
    | ok buckets3 =>
      rw [hreb] at h
      simp only at h
      obtain ⟨hout, hsizes⟩ := final_checks_ok texts buckets3 buckets h
      constructor
      · have h1 : buckets.flatten = buckets3.flatten := by
          rw [hout]
          exact flatten_filter_nonempty buckets3
        have h2 : buckets3.flatten =
            ((buckets1.map (sort_bucket texts order)).flatten) :=
          rebalance_go_flatten sizes _ _ _ hreb
        have h3 : ((buckets1.map (sort_bucket texts order)).flatten).Perm
            buckets1.flatten := map_sort_flatten_perm texts order buckets1
        have h4 : buckets1.flatten.Perm texts :=
          fill_buckets_ok_flatten texts sizes cl buckets1 hfill
        rw [h1, h2]
        exact h3.trans h4
      · exact hsizes

/-- C4 (amended).  For every non-empty input, whenever `semantic_batching`
returns normally its buckets partition the deduplicated input texts: the
flattened buckets are a permutation of the deduplicated texts, every
distinct input text occurs in exactly one bucket (count 1 across the
flattening, so no text is dropped, duplicated or invented), and every
bucket has at least 2 texts except that with fewer than 5 distinct texts
the single returned bucket holds all of them. -/
theorem semantic_batching_partial (texts0 : List String) (sizes : String → ℕ)
    (order : ℕ → ℕ) (clusterLabels : List ℕ) (buckets : List (List String))
    (hok : semantic_batching texts0 sizes order clusterLabels =
      Except.ok buckets) :
    buckets.flatten.Perm (dedup_texts texts0) ∧
    (∀ t ∈ dedup_texts texts0, buckets.flatten.count t = 1) ∧
    (∀ b ∈ buckets, 2 ≤ b.length ∨ buckets = [dedup_texts texts0]) := by
  unfold semantic_batching at hok
  by_cases hempty : texts0.isEmpty
  · rw [if_pos hempty] at hok
    simp at hok
  rw [if_neg hempty] at hok
  by_cases hfew : (dedup_texts texts0).length < 5
  · rw [if_pos hfew] at hok
    simp only [Except.ok.injEq] at hok
    subst hok
    refine ⟨by simp, ?_, fun b _ => Or.inr rfl⟩
    intro t ht
    have hflat : ([dedup_texts texts0] : List (List String)).flatten =
        dedup_texts texts0 := by simp
    rw [hflat]
    exact List.count_eq_one_of_mem (dedup_texts_nodup texts0) ht
  · rw [if_neg hfew] at hok
    obtain ⟨hperm, hsize⟩ :=
      semantic_batching_main_flatten (dedup_texts texts0) sizes order
        clusterLabels buckets hok
    refine ⟨hperm, ?_, fun b hb => Or.inl (hsize b hb)⟩
    intro t ht
    rw [hperm.count_eq]
    exact List.count_eq_one_of_mem (dedup_texts_nodup texts0) ht

/-- C4 (witness for `semantic_batching_partial` on a 3-text input, which
returns the single bucket of all texts). -/
theorem semantic_batching_partial_witness :
    (([["a", "b", "c"]] : List (List String)).flatten).Perm
      (dedup_texts ["a", "b", "c"]) ∧
    (∀ t ∈ dedup_texts ["a", "b", "c"],
      (([["a", "b", "c"]] : List (List String)).flatten).count t = 1) ∧
    (∀ b ∈ ([["a", "b", "c"]] : List (List String)),
      2 ≤ b.length ∨ [["a", "b", "c"]] = [dedup_texts ["a", "b", "c"]]) :=
  semantic_batching_partial ["a", "b", "c"] (fun _ => 1) (fun i => i) []
    [["a", "b", "c"]] rfl

/-- C4 (counterexample).  On the single-text input `["a"]` the function
returns one bucket of size 1, which is neither the tolerated
oversized-text merge nor a bucket of at least 2 texts, so the claim's
bucket-size clause is false as stated. -/
theorem semantic_batching_singleton_bucket :
    semantic_batching ["a"] (fun _ => 1) (fun i => i) [] =
      Except.ok [["a"]] ∧
    ∃ b ∈ ([["a"]] : List (List String)), b.length < 2 :=
  ⟨rfl, ⟨["a"], by simp⟩⟩

/-- C5 (code bug).  With one cluster of three 400-token texts (and a
second small cluster), the packing loop resets `current_tokens` to 0
instead of to the size of the text that opens the new bucket
(src/WDoc/utils/tasks/query.py line 285), so it produces the two-text
bucket ["b", "c"] totalling 800 > 500 tokens, and the code's own
assertion `sum(text_sizes[t] for t in bucket) <= max_token` (line 296)
fails: the run raises AssertionError instead of keeping every packed
bucket within the budget. -/
theorem semantic_batching_packing_overflow :
    semantic_batching ["a", "b", "c", "d", "e"]
        (fun t => if t = "a" ∨ t = "b" ∨ t = "c" then 400 else 1)
        (fun i => i) [1, 1, 1, 2, 2] =
      Except.error "AssertionError: bucket over token budget" ∧
    pack_cluster ["a", "b", "c", "d", "e"]
        (fun t => if t = "a" ∨ t = "b" ∨ t = "c" then 400 else 1) [0, 1, 2] =
      [["a"], ["b", "c"]] ∧
    bucket_tokens (fun t => if t = "a" ∨ t = "b" ∨ t = "c" then 400 else 1)
      ["b", "c"] = 800 :=
  ⟨rfl, rfl, rfl⟩
